import Mathlib

/-!  Verification of the KVN line lexers of `crates/lox-io/src/ndm/kvn/parser.rs`.

The Rust lexers are anchored regular expressions over one input line.  Because
every character class involved (white space, keyword characters, digits, unit
characters, the literal separators `=`, `[`, `]`, `.`, `-`, `T`, `:`) is
disjoint from its neighbours in the patterns, each regex denotes a
deterministic maximal-munch scan; the definitions below embed the lexers as
those scans over `List Char`.  Machine integers are modelled as `Nat`/`Int`
with the explicit `from_str` range checks of the Rust integer types, and the
IEEE floats produced by `fast_float`/`str::parse::<f64>` are modelled as exact
rationals (the claims checked here never depend on rounding).  A Rust `panic!`
reached through `Option::unwrap` is modelled by an explicit `panic` outcome
constructor. -/

namespace Lox

/-- Characters matched by the regex class `\s` (Unicode `White_Space`), which is
also the set trimmed by Rust's `str::trim_start`/`trim_end`. -/
def isSpace (c : Char) : Bool :=
  decide (c.toNat = 0x20) || decide (0x9 ≤ c.toNat ∧ c.toNat ≤ 0xd) ||
  decide (c.toNat = 0x85) || decide (c.toNat = 0xa0) || decide (c.toNat = 0x1680) ||
  decide (0x2000 ≤ c.toNat ∧ c.toNat ≤ 0x200a) ||
  decide (c.toNat = 0x2028) || decide (c.toNat = 0x2029) || decide (c.toNat = 0x202f) ||
  decide (c.toNat = 0x205f) || decide (c.toNat = 0x3000)

/-- The keyword class `[0-9A-Za-z_]` of the integer/float/empty-value patterns. -/
def isKwAl (c : Char) : Bool :=
  decide (0x30 ≤ c.toNat ∧ c.toNat ≤ 0x39) || decide (0x41 ≤ c.toNat ∧ c.toNat ≤ 0x5a) ||
  decide (0x61 ≤ c.toNat ∧ c.toNat ≤ 0x7a) || decide (c.toNat = 0x5f)

/-- The keyword class `[0-9A-Z_]` of the string/date-time/matcher patterns. -/
def isKwU (c : Char) : Bool :=
  decide (0x30 ≤ c.toNat ∧ c.toNat ≤ 0x39) || decide (0x41 ≤ c.toNat ∧ c.toNat ≤ 0x5a) ||
  decide (c.toNat = 0x5f)

/-- The unit class `[0-9A-Za-z/_*]`. -/
def isUnitChar (c : Char) : Bool :=
  isKwAl c || decide (c.toNat = 0x2f) || decide (c.toNat = 0x2a)

/-- ASCII decimal digits, the class `[0-9]` (and the class `\d` restricted to
ASCII; all inputs relevant to the claims are ASCII). -/
def isAsciiDigit (c : Char) : Bool :=
  decide (0x30 ≤ c.toNat ∧ c.toNat ≤ 0x39)

/-- Value of a string of decimal digits, as computed by the Rust `from_str`
implementations digit by digit. -/
def digitsToNat (ds : List Char) : Nat :=
  ds.foldl (fun a c => 10 * a + (c.toNat - 0x30)) 0

/-- Rust `str::trim_end` on a line. -/
def trimEnd (l : List Char) : List Char :=
  (l.reverse.dropWhile isSpace).reverse

/-- Mathematical floor of a rational (`f64::floor`), computed by floor division
of the normalized numerator by the denominator. -/
def ratFloor (q : ℚ) : Int :=
  Int.fdiv q.num (q.den : Int)

/-- Fractional part `q - ⌊q⌋` of a rational (`f64::fract` on the non-negative
values produced here), computed on the numerator and denominator. -/
def ratFract (q : ℚ) : ℚ :=
  mkRat (q.num - ratFloor q * (q.den : Int)) q.den

/-- Exact rational value of the decimal
`[-]digits[.fraction-digits] * 10^e`, built as a single quotient. -/
def decimalValue (neg : Bool) (ds fs : List Char) (e : Int) : ℚ :=
  let m : Int := (digitsToNat ds * 10 ^ fs.length + digitsToNat fs : Nat)
  let m : Int := if neg then -m else m
  if 0 ≤ e - (fs.length : Int) then mkRat (m * 10 ^ (e - (fs.length : Int)).toNat) 1
  else mkRat m (10 ^ ((fs.length : Int) - e).toNat)

deriving instance DecidableEq for Except

/-- Error family of `parse_kvn_string_line_new`. -/
inductive KvnStringParserErr where
  | EmptyKeyword (input : List Char)
  | EmptyValue (input : List Char)
  | InvalidFormat (input : List Char)
deriving DecidableEq

/-- Error raised when an expected keyword is not found; it stores only the
expected keyword (`parser.rs` lines 23-26). -/
structure KvnKeywordNotFoundErr where
  expected : List Char
deriving DecidableEq

/-- Error family of the integer and float lexers. -/
inductive KvnNumberParserErr where
  | EmptyKeyword (input : List Char)
  | EmptyValue (input : List Char)
  | InvalidFormat (input : List Char)
deriving DecidableEq

/-- Error family of the date-time lexer. -/
inductive KvnDateTimeParserErr where
  | EmptyKeyword (input : List Char)
  | EmptyValue (input : List Char)
  | InvalidFormat (input : List Char)
deriving DecidableEq

/-- The shared deserialization error type `KvnDeserializerErr`; its variants and
their payloads are the ones constructed by the `From` impls of `parser.rs`
(lines 42-102). -/
inductive KvnDeserializerErr where
  | EmptyKeyword (input : List Char)
  | EmptyValue (input : List Char)
  | InvalidStringFormat (input : List Char)
  | InvalidDateTimeFormat (input : List Char)
  | KeywordNotFound (expected : List Char)
deriving DecidableEq

/-- The `From<KvnStringParserErr<&str>>` impl (lines 42-58). -/
def stringErrToDeserializer : KvnStringParserErr → KvnDeserializerErr
  | .EmptyValue input => .EmptyValue input
  | .EmptyKeyword input => .EmptyKeyword input
  | .InvalidFormat input => .InvalidStringFormat input

/-- The `From<KvnDateTimeParserErr<&str>>` impl (lines 60-76). -/
def dateTimeErrToDeserializer : KvnDateTimeParserErr → KvnDeserializerErr
  | .EmptyValue input => .EmptyValue input
  | .EmptyKeyword input => .EmptyKeyword input
  | .InvalidFormat input => .InvalidDateTimeFormat input

/-- The `From<KvnNumberParserErr<&str>>` impl (lines 78-94); note that its
`InvalidFormat` arm builds `InvalidDateTimeFormat`. -/
def numberErrToDeserializer : KvnNumberParserErr → KvnDeserializerErr
  | .EmptyValue input => .EmptyValue input
  | .EmptyKeyword input => .EmptyKeyword input
  | .InvalidFormat input => .InvalidDateTimeFormat input

/-- The `From<KvnKeywordNotFoundErr<&str>>` impl (lines 96-102). -/
def keywordNotFoundToDeserializer (e : KvnKeywordNotFoundErr) : KvnDeserializerErr :=
  .KeywordNotFound e.expected

/-- The raw text payload stored in a string-lexer error. -/
def stringErrText : KvnStringParserErr → List Char
  | .EmptyKeyword i => i
  | .EmptyValue i => i
  | .InvalidFormat i => i

/-- The raw text payload stored in a number-lexer error. -/
def numberErrText : KvnNumberParserErr → List Char
  | .EmptyKeyword i => i
  | .EmptyValue i => i
  | .InvalidFormat i => i

/-- The raw text payload stored in a date-time-lexer error. -/
def dtErrText : KvnDateTimeParserErr → List Char
  | .EmptyKeyword i => i
  | .EmptyValue i => i
  | .InvalidFormat i => i

/-- The single text payload carried by a normalized deserialization error. -/
def deserializerErrText : KvnDeserializerErr → List Char
  | .EmptyKeyword i => i
  | .EmptyValue i => i
  | .InvalidStringFormat i => i
  | .InvalidDateTimeFormat i => i
  | .KeywordNotFound e => e

/-- The struct `KvnValue<V, U>`: a typed value plus an optional unit tag. -/
structure KvnValue (V U : Type) where
  value : V
  unit : Option U
deriving DecidableEq

/-- The struct `KvnDateTimeValue`; `u16`/`u8` fields are modelled as `Nat`
(every produced value is far below the machine bounds, see the lexer) and the
`f64` fractional second as an exact rational. -/
structure KvnDateTimeValue where
  year : Nat
  month : Nat
  day : Nat
  hour : Nat
  minute : Nat
  second : Nat
  fractional_second : ℚ
  full_value : List Char
deriving DecidableEq

/-- Result of the date-time lexer: success, structured error, or a Rust panic
reached through `Option::unwrap`/`Result::unwrap` inside the function. -/
inductive DtParseOutcome where
  | ok (v : KvnDateTimeValue)
  | err (e : KvnDateTimeParserErr)
  | panic
deriving DecidableEq

/-- Shared scan for the anchored pattern head `^\s*(keyword-class*)\s*=`,
returning the captured keyword and the text after `=`.  Each regex in
`parser.rs` starts with this shape; the keyword class is a parameter because
the string/date-time patterns use `[0-9A-Z_]` and the numeric ones
`[0-9A-Za-z_]`. -/
def eqScan (p : Char → Bool) (input : List Char) : Option (List Char × List Char) :=
  match ((input.dropWhile isSpace).dropWhile p).dropWhile isSpace with
  | '=' :: rest => some ((input.dropWhile isSpace).takeWhile p, rest)
  | _ => none

/-- Text after the opening `[` of an empty-value line: the remnant
`[0-9A-Za-z/_*]*\]?` must close the line with no trailing white space. -/
def emptyBracketTail (r2 : List Char) : Bool :=
  match r2.dropWhile isUnitChar with
  | [] => true
  | c :: r3 => if c = ']' ∧ r3 = [] then true else false

/-- Text after the `=` of an empty-value line: white space, then nothing or a
bracket remnant. -/
def emptyValueTail (rest : List Char) : Bool :=
  match rest.dropWhile isSpace with
  | [] => true
  | c :: r2 => if c = '[' then emptyBracketTail r2 else false

/-- The helper `is_empty_value` (lines 246-253): matches
`^\s*[0-9A-Za-z_]*\s*=\s*(\[[0-9A-Za-z/_*]*\]?)?$`. -/
def is_empty_value (input : List Char) : Bool :=
  match eqScan isKwAl input with
  | none => false
  | some (_, rest) => emptyValueTail rest

/-- Optional sign `[-+]?` in front of a number: the matched sign characters and
the remaining text. -/
def splitSign (t : List Char) : List Char × List Char :=
  match t with
  | c :: r => if c = '+' ∨ c = '-' then ([c], r) else ([], c :: r)
  | [] => ([], [])

/-- Scan for the integer value sub-pattern `[-+]?[0-9]+(\.\d*)?`: the matched
value text and the remaining text, or `none` when no digits follow the sign. -/
def parseSignedNumber (t : List Char) : Option (List Char × List Char) :=
  if (splitSign t).2.takeWhile isAsciiDigit = [] then none
  else
    match (splitSign t).2.dropWhile isAsciiDigit with
    | '.' :: t3 =>
      some ((splitSign t).1 ++ (splitSign t).2.takeWhile isAsciiDigit ++
        '.' :: t3.takeWhile isAsciiDigit, t3.dropWhile isAsciiDigit)
    | t2 => some ((splitSign t).1 ++ (splitSign t).2.takeWhile isAsciiDigit, t2)

/-- Scan for the float value sub-pattern
`[-+]?[0-9]+(\.\d*)?([eE][+-]?\d+)?`. -/
def parseSignedNumberExp (t : List Char) : Option (List Char × List Char) :=
  match parseSignedNumber t with
  | none => none
  | some (vs, t2) =>
    match t2 with
    | c :: t3 =>
      if c = 'e' ∨ c = 'E' then
        if (splitSign t3).2.takeWhile isAsciiDigit = [] then none
        else
          some (vs ++ c :: ((splitSign t3).1 ++ (splitSign t3).2.takeWhile isAsciiDigit),
            (splitSign t3).2.dropWhile isAsciiDigit)
      else some (vs, c :: t3)
    | [] => some (vs, [])

/-- Drop one closing `]` if present: the regexes make the closing bracket of a
unit optional (`\]?`). -/
def dropCloseBracket (t : List Char) : List Char :=
  match t with
  | c :: r => if c = ']' then r else c :: r
  | [] => []

/-- Scan of the text after the numeric value: in unit mode an optional
`\s*\[unit\]?` clause then white space to the end of line, otherwise white
space only; returns the optional unit capture. -/
def unitTailScan (t2 : List Char) (with_unit : Bool) : Option (Option (List Char)) :=
  if with_unit then
    match t2.dropWhile isSpace with
    | [] => some none
    | c :: t4 =>
      if c = '[' then
        if (dropCloseBracket (t4.dropWhile isUnitChar)).all isSpace then
          some (some (t4.takeWhile isUnitChar))
        else none
      else none
  else if t2.dropWhile isSpace = [] then some none else none

/-- Shared line scan of the integer and float lexers: keyword, value text and
optional unit text of
`^\s*([0-9A-Za-z_]*)\s*=\s*(value)((\s*\[unit\]?)?)?\s*$`, where the value
sub-pattern is the `valP` parameter and the unit clause exists only in unit
mode. -/
def numLineCaptures (valP : List Char → Option (List Char × List Char))
    (input : List Char) (with_unit : Bool) :
    Option (List Char × List Char × Option (List Char)) :=
  match eqScan isKwAl input with
  | none => none
  | some (kw, rest) =>
    match valP (rest.dropWhile isSpace) with
    | none => none
    | some (vs, t2) =>
      match unitTailScan t2 with_unit with
      | none => none
      | some u => some (kw, vs, u)

/-- Digit-and-range step of Rust `i64::from_str` on the split sign and digit
text: only ASCII digits may remain after the sign, and the signed value must
fit the `i64` range. -/
def i64_of_parts (sign ds : List Char) : Option Int :=
  if ds ≠ [] ∧ ds.all isAsciiDigit then
    if sign = ['-'] then
      if -(2 ^ 63) ≤ -(digitsToNat ds : Int) then some (-(digitsToNat ds : Int))
      else none
    else
      if (digitsToNat ds : Int) ≤ 2 ^ 63 - 1 then some ((digitsToNat ds : Int))
      else none
  else none

/-- Rust `i64::from_str`: optional single sign, then only ASCII digits, with
the `i64` range check.  This instantiates the generic `T: FromStr` target type
of `parse_kvn_integer_line_new` at `i64`. -/
def i64_from_str (s : List Char) : Option Int :=
  i64_of_parts (splitSign s).1 (splitSign s).2

/-- Signed value of the exponent clause `([eE][+-]?\d+)?` of a float value
text: `some 0` when absent, `none` when malformed. -/
def expVal (t : List Char) : Option Int :=
  match t with
  | [] => some 0
  | c :: t3 =>
    if c = 'e' ∨ c = 'E' then
      if (splitSign t3).2 ≠ [] ∧ (splitSign t3).2.all isAsciiDigit then
        if (splitSign t3).1 = ['-'] then some (-(digitsToNat (splitSign t3).2 : Int))
        else some ((digitsToNat (splitSign t3).2 : Int))
      else none
    else none

/-- The locale-independent `fast_float::parse` restricted to the value texts
the float regex can capture (`[-+]?digits(\.\d*)?([eE][+-]?\d+)?`), with the
IEEE result abstracted to the exact decimal rational. -/
def fast_float_parse (s : List Char) : Option ℚ :=
  if (splitSign s).2.takeWhile isAsciiDigit = [] then none
  else
    match (splitSign s).2.dropWhile isAsciiDigit with
    | '.' :: t3 =>
      match expVal (t3.dropWhile isAsciiDigit) with
      | none => none
      | some e =>
        some (decimalValue (decide ((splitSign s).1 = ['-']))
          ((splitSign s).2.takeWhile isAsciiDigit) (t3.takeWhile isAsciiDigit) e)
    | t2 =>
      match expVal t2 with
      | none => none
      | some e =>
        some (decimalValue (decide ((splitSign s).1 = ['-']))
          ((splitSign s).2.takeWhile isAsciiDigit) [] e)

/-- `parse_kvn_integer_line_new` (lines 199-244), generic over the integer
target type through its `from_str` function. -/
def parse_kvn_integer_line_new {α : Type} (tFromStr : List Char → Option α)
    (input : List Char) (with_unit : Bool) :
    Except KvnNumberParserErr (KvnValue α (List Char)) :=
  if is_empty_value input then .error (.EmptyValue input)
  else
    match numLineCaptures parseSignedNumber input with_unit with
    | none => .error (.InvalidFormat input)
    | some (kw, vs, u) =>
      if kw = [] then .error (.EmptyKeyword input)
      else
        match tFromStr vs with
        | none => .error (.InvalidFormat input)
        | some n => .ok ⟨n, u⟩

/-- `parse_kvn_numeric_line_new` (lines 255-296). -/
def parse_kvn_numeric_line_new (input : List Char) (with_unit : Bool) :
    Except KvnNumberParserErr (KvnValue ℚ (List Char)) :=
  if is_empty_value input then .error (.EmptyValue input)
  else
    match numLineCaptures parseSignedNumberExp input with_unit with
    | none => .error (.InvalidFormat input)
    | some (kw, vs, u) =>
      if kw = [] then .error (.EmptyKeyword input)
      else
        match fast_float_parse vs with
        | none => .error (.InvalidFormat input)
        | some q => .ok ⟨q, u⟩

/-- Test for `input.trim_start().starts_with("COMMENT ")`. -/
def startsWithCommentSpace (t : List Char) : Bool :=
  match t with
  | 'C' :: 'O' :: 'M' :: 'M' :: 'E' :: 'N' :: 'T' :: ' ' :: _ => true
  | _ => false

/-- Rust `trim_start_matches("COMMENT")`: strip every leading occurrence. -/
def trimCommentKeyword : List Char → List Char
  | 'C' :: 'O' :: 'M' :: 'M' :: 'E' :: 'N' :: 'T' :: rest => trimCommentKeyword rest
  | t => t

/-- Captures of the string-line regex
`^\s*([0-9A-Z_]*)\s*=\s*(.*)\s*$` with the value already passed through
`trim_end` as in the source: the classes `\s` and `.` overlap, but the greedy
`.*` stops only at a line feed, so the regex matches exactly when everything
from the first `\n` after the `=` (if any) is white space, and the raw value
capture is the text before that `\n`. -/
def stringLineCaptures (input : List Char) : Option (List Char × List Char) :=
  match eqScan isKwU input with
  | none => none
  | some (kw, rest) =>
    if (((rest.dropWhile isSpace).dropWhile (fun c => !(c = '\n'))).all isSpace) then
      some (kw, trimEnd ((rest.dropWhile isSpace).takeWhile (fun c => !(c = '\n'))))
    else none

/-- `parse_kvn_string_line_new` (lines 144-197). -/
def parse_kvn_string_line_new (input : List Char) :
    Except KvnStringParserErr (KvnValue (List Char) (List Char)) :=
  if startsWithCommentSpace (input.dropWhile isSpace) then
    .ok ⟨(trimCommentKeyword (input.dropWhile isSpace)).dropWhile isSpace, none⟩
  else if is_empty_value input then .error (.EmptyValue input)
  else
    match stringLineCaptures input with
    | none => .error (.InvalidFormat input)
    | some (kw, v) =>
      if kw = [] then .error (.EmptyKeyword input)
      else if v = [] then .error (.EmptyValue input)
      else .ok ⟨v, none⟩

/-- `kvn_line_matches_key_new` (lines 123-142): the pattern
`^\s*([0-9A-Z_]*)\s*` is nullable, so the capture step always succeeds; the
`ok_or` error branch is kept to mirror the source. -/
def keywordLineRegexCaptures (input : List Char) : Option (List Char) :=
  some ((input.dropWhile isSpace).takeWhile isKwU)

/-- `kvn_line_matches_key_new` compares the trimmed captured keyword with the
expected keyword. -/
def kvn_line_matches_key_new (key input : List Char) :
    Except KvnKeywordNotFoundErr Bool :=
  match keywordLineRegexCaptures input with
  | none => .error ⟨key⟩
  | some kw => .ok (decide (trimEnd kw = key))

/-- Specification-side definition of §4.2: the leading keyword token of a line
is the run of upper-case letters, digits and underscores after the
insignificant leading white space. -/
def spec_leading_keyword (input : List Char) : List Char :=
  (input.dropWhile isSpace).takeWhile isKwU

/-- Captured fields of the date-time regex. -/
structure DtCaptures where
  kw : List Char
  yr : List Char
  mo : List Char
  dy : List Char
  hr : List Char
  mn : List Char
  scInt : List Char
  scFrac : Option (List Char)
deriving DecidableEq

/-- Scan `\d{n}sep` with an exact digit count (used for the 4-digit year). -/
def takeFixedDigits (n : Nat) (sep : Char) (t : List Char) :
    Option (List Char × List Char) :=
  if (t.takeWhile isAsciiDigit).length = n then
    match t.dropWhile isAsciiDigit with
    | c :: r => if c = sep then some (t.takeWhile isAsciiDigit, r) else none
    | [] => none
  else none

/-- Scan `\d{1,2}sep` (month, day, hour, minute). -/
def takeDigits1or2 (sep : Char) (t : List Char) : Option (List Char × List Char) :=
  if (t.takeWhile isAsciiDigit).length = 1 ∨ (t.takeWhile isAsciiDigit).length = 2 then
    match t.dropWhile isAsciiDigit with
    | c :: r => if c = sep then some (t.takeWhile isAsciiDigit, r) else none
    | [] => none
  else none

/-- Scan the seconds field `\d{0,2}(\.\d*)?` followed by `\s*$`: integer-second
digits and, when a decimal point is present, the fraction digits. -/
def takeSecondsEnd (t : List Char) : Option (List Char × Option (List Char)) :=
  if (t.takeWhile isAsciiDigit).length ≤ 2 then
    match t.dropWhile isAsciiDigit with
    | '.' :: r =>
      if (r.dropWhile isAsciiDigit).all isSpace then
        some (t.takeWhile isAsciiDigit, some (r.takeWhile isAsciiDigit))
      else none
    | r => if r.all isSpace then some (t.takeWhile isAsciiDigit, none) else none
  else none

/-- Captures of the date-time regex (line 306):
`^\s*([0-9A-Z_]*)\s*=\s*((\d{4})-(\d{1,2})-(\d{1,2})T(\d{1,2}):(\d{1,2}):(\d{0,2}(\.\d*)?))\s*$`. -/
def dtLineCaptures (input : List Char) : Option DtCaptures :=
  match eqScan isKwU input with
  | none => none
  | some (kw, rest) =>
    match takeFixedDigits 4 '-' (rest.dropWhile isSpace) with
    | none => none
    | some (yr, r1) =>
      match takeDigits1or2 '-' r1 with
      | none => none
      | some (mo, r2) =>
        match takeDigits1or2 'T' r2 with
        | none => none
        | some (dy, r3) =>
          match takeDigits1or2 ':' r3 with
          | none => none
          | some (hr, r4) =>
            match takeDigits1or2 ':' r4 with
            | none => none
            | some (mn, r5) =>
              match takeSecondsEnd r5 with
              | none => none
              | some (sc, fr) => some ⟨kw, yr, mo, dy, hr, mn, sc, fr⟩

/-- The exact text matched by the seconds capture `sc`. -/
def scText (c : DtCaptures) : List Char :=
  c.scInt ++ (match c.scFrac with | some f => '.' :: f | none => [])

/-- The exact text matched by the whole `value` capture, kept by the lexer in
`full_value`. -/
def dtFullValue (c : DtCaptures) : List Char :=
  c.yr ++ '-' :: (c.mo ++ '-' :: (c.dy ++ 'T' :: (c.hr ++ ':' :: (c.mn ++ ':' :: scText c))))

/-- Rust `u16::from_str`/`u8::from_str` on a capture made of digits, with the
range bound of the target type. -/
def natFromDigitsBounded (bound : Nat) (s : List Char) : Option Nat :=
  if s ≠ [] ∧ s.all isAsciiDigit ∧ digitsToNat s ≤ bound then some (digitsToNat s) else none

/-- Rust `str::parse::<f64>` on a seconds capture `\d{0,2}(\.\d*)?`, as an
exact rational: it fails exactly when the text contains no digit at all
(`""` or `"."`). -/
def rust_f64_from_str (s : List Char) : Option ℚ :=
  match s.dropWhile isAsciiDigit with
  | [] => if s = [] then none else some ((digitsToNat s : ℚ))
  | '.' :: r =>
    if r.all isAsciiDigit then
      if s.takeWhile isAsciiDigit = [] ∧ r = [] then none
      else some (decimalValue false (s.takeWhile isAsciiDigit) r 0)
    else none
  | _ => none

/-- `parse_kvn_datetime_line_new` (lines 298-377).  The `unwrap` calls of the
source on the capture conversions are modelled by the `panic` outcome; the
`floor`/`fract` split of the seconds and the `as u8` cast are exact on every
value the grammar can produce (`0 ≤ s < 100`). -/
def parse_kvn_datetime_line_new (input : List Char) : DtParseOutcome :=
  if is_empty_value input then .err (.EmptyValue input)
  else
    match dtLineCaptures input with
    | none => .err (.InvalidFormat input)
    | some c =>
      if c.kw = [] then .err (.EmptyKeyword input)
      else
        match natFromDigitsBounded 65535 c.yr, natFromDigitsBounded 255 c.mo,
            natFromDigitsBounded 255 c.dy, natFromDigitsBounded 255 c.hr,
            natFromDigitsBounded 255 c.mn, rust_f64_from_str (scText c) with
        | some y, some mo, some dy, some hr, some mn, some fs =>
          .ok ⟨y, mo, dy, hr, mn, (ratFloor fs).toNat, ratFract fs, dtFullValue c⟩
        | _, _, _, _, _, _ => .panic

/-- Modelled from the spec: step 5 of the deserialization protocol (§4.4) is
implemented in `deserializer.rs`, which is not among the examined sources —
when the peeked line's keyword does not match a mandatory field's expected
keyword, the walk fails with `KeywordNotFound{expected}`, normalized through
the `From` impl of `parser.rs`. -/
def deserializerMandatoryMismatchErr (expected line : List Char) :
    Option KvnDeserializerErr :=
  match kvn_line_matches_key_new expected line with
  | .ok false => some (keywordNotFoundToDeserializer ⟨expected⟩)
  | _ => none

/-! Basic facts about `takeWhile`/`dropWhile` and the character classes. -/

theorem takeWhile_mem_pred {p : Char → Bool} :
    ∀ (l : List Char) (c : Char), c ∈ l.takeWhile p → p c = true := by
  intro l
  induction l with
  | nil => intro c hc; simp at hc
  | cons a t ih =>
    intro c hc
    cases hpa : p a with
    | true =>
      rw [List.takeWhile_cons_of_pos hpa] at hc
      rcases List.mem_cons.mp hc with h | h
      · subst h; exact hpa
      · exact ih c h
    | false =>
      rw [List.takeWhile_cons_of_neg (by simp [hpa])] at hc
      simp at hc

theorem dropWhile_all {p : Char → Bool} :
    ∀ (l : List Char), (∀ c ∈ l, p c = true) → l.dropWhile p = [] := by
  intro l
  induction l with
  | nil => intro _; rfl
  | cons a t ih =>
    intro h
    rw [List.dropWhile_cons_of_pos (h a (List.mem_cons_self a t))]
    exact ih fun c hc => h c (List.mem_cons_of_mem a hc)

theorem takeWhile_all {p : Char → Bool} :
    ∀ (l : List Char), (∀ c ∈ l, p c = true) → l.takeWhile p = l := by
  intro l
  induction l with
  | nil => intro _; rfl
  | cons a t ih =>
    intro h
    rw [List.takeWhile_cons_of_pos (h a (List.mem_cons_self a t))]
    rw [ih fun c hc => h c (List.mem_cons_of_mem a hc)]

theorem all_of_dropWhile_eq_nil {p : Char → Bool} :
    ∀ (l : List Char), l.dropWhile p = [] → ∀ c ∈ l, p c = true := by
  intro l
  induction l with
  | nil => intro _ c hc; simp at hc
  | cons a t ih =>
    intro h c hc
    cases hpa : p a with
    | true =>
      rw [List.dropWhile_cons_of_pos hpa] at h
      rcases List.mem_cons.mp hc with he | hm
      · subst he; exact hpa
      · exact ih h c hm
    | false =>
      rw [List.dropWhile_cons_of_neg (by simp [hpa])] at h
      cases h

theorem isSpace_range {c : Char} (h : isSpace c = true) :
    c.toNat ≤ 0x20 ∨ 0x85 ≤ c.toNat := by
  unfold isSpace at h
  simp only [Bool.or_eq_true, decide_eq_true_eq] at h
  omega

theorem isKwAl_range {c : Char} (h : isKwAl c = true) :
    0x30 ≤ c.toNat ∧ c.toNat ≤ 0x7a := by
  unfold isKwAl at h
  simp only [Bool.or_eq_true, decide_eq_true_eq] at h
  omega

theorem isKwU_range {c : Char} (h : isKwU c = true) :
    0x30 ≤ c.toNat ∧ c.toNat ≤ 0x5f := by
  unfold isKwU at h
  simp only [Bool.or_eq_true, decide_eq_true_eq] at h
  omega

theorem isUnitChar_range {c : Char} (h : isUnitChar c = true) :
    0x2a ≤ c.toNat ∧ c.toNat ≤ 0x7a := by
  unfold isUnitChar isKwAl at h
  simp only [Bool.or_eq_true, decide_eq_true_eq] at h
  omega

theorem isAsciiDigit_range {c : Char} (h : isAsciiDigit c = true) :
    0x30 ≤ c.toNat ∧ c.toNat ≤ 0x39 := by
  unfold isAsciiDigit at h
  simp only [decide_eq_true_eq] at h
  omega

theorem isKwAl_not_space {c : Char} (h : isKwAl c = true) : isSpace c = false := by
  cases hs : isSpace c with
  | false => rfl
  | true => have h1 := isSpace_range hs; have h2 := isKwAl_range h; omega

theorem isKwU_not_space {c : Char} (h : isKwU c = true) : isSpace c = false := by
  cases hs : isSpace c with
  | false => rfl
  | true => have h1 := isSpace_range hs; have h2 := isKwU_range h; omega

theorem isUnitChar_not_space {c : Char} (h : isUnitChar c = true) : isSpace c = false := by
  cases hs : isSpace c with
  | false => rfl
  | true => have h1 := isSpace_range hs; have h2 := isUnitChar_range h; omega

theorem isAsciiDigit_not_space {c : Char} (h : isAsciiDigit c = true) : isSpace c = false := by
  cases hs : isSpace c with
  | false => rfl
  | true => have h1 := isSpace_range hs; have h2 := isAsciiDigit_range h; omega

theorem isSpace_not_kwAl {c : Char} (h : isSpace c = true) : isKwAl c = false := by
  cases hk : isKwAl c with
  | false => rfl
  | true => have h1 := isSpace_range h; have h2 := isKwAl_range hk; omega

theorem isSpace_not_kwU {c : Char} (h : isSpace c = true) : isKwU c = false := by
  cases hk : isKwU c with
  | false => rfl
  | true => have h1 := isSpace_range h; have h2 := isKwU_range hk; omega

theorem ne_char_of_class {p : Char → Bool} {c ch : Char}
    (h : p c = true) (hch : p ch = false) : c ≠ ch := by
  intro he
  rw [he, hch] at h
  cases h

/-! Soundness and completeness of the shared `keyword = ` scan. -/

theorem eqScan_sound {p : Char → Bool} {input kw rest : List Char}
    (h : eqScan p input = some (kw, rest)) :
    ∃ sp1 sp2, input = sp1 ++ (kw ++ (sp2 ++ '=' :: rest)) ∧
      (∀ c ∈ sp1, isSpace c = true) ∧ (∀ c ∈ kw, p c = true) ∧
      (∀ c ∈ sp2, isSpace c = true) ∧ kw = (input.dropWhile isSpace).takeWhile p := by
  unfold eqScan at h
  split at h
  next rest2 heq =>
    injection h with h2
    injection h2 with hkw hrest
    subst hkw
    subst hrest
    refine ⟨input.takeWhile isSpace,
      ((input.dropWhile isSpace).dropWhile p).takeWhile isSpace, ?_, ?_, ?_, ?_, rfl⟩
    · have e1 := List.takeWhile_append_dropWhile isSpace input
      have e2 := List.takeWhile_append_dropWhile p (input.dropWhile isSpace)
      have e3 := List.takeWhile_append_dropWhile isSpace
        ((input.dropWhile isSpace).dropWhile p)
      rw [heq] at e3
      rw [e3, e2, e1]
    · exact takeWhile_mem_pred input
    · exact takeWhile_mem_pred (input.dropWhile isSpace)
    · exact takeWhile_mem_pred ((input.dropWhile isSpace).dropWhile p)
  next =>
    cases h

theorem eqScan_complete {p : Char → Bool}
    (hsp : ∀ c, isSpace c = true → p c = false) (hpe : p '=' = false)
    (hps : ∀ c, p c = true → isSpace c = false)
    (sp1 kw sp2 r : List Char)
    (h1 : ∀ c ∈ sp1, isSpace c = true) (hk : ∀ c ∈ kw, p c = true)
    (h2 : ∀ c ∈ sp2, isSpace c = true) :
    eqScan p (sp1 ++ (kw ++ (sp2 ++ '=' :: r))) = some (kw, r) := by
  have hesp : isSpace '=' = false := by decide
  have tw0 : (sp2 ++ '=' :: r).takeWhile p = [] := by
    cases sp2 with
    | nil => exact List.takeWhile_cons_of_neg (by simp [hpe])
    | cons b tb =>
      rw [List.cons_append]
      exact List.takeWhile_cons_of_neg
        (by simp [hsp b (h2 b (List.mem_cons_self b tb))])
  have dw0 : ((sp2 ++ '=' :: r).dropWhile p).dropWhile isSpace = '=' :: r := by
    cases sp2 with
    | nil =>
      rw [List.nil_append, List.dropWhile_cons_of_neg (by simp [hpe]),
        List.dropWhile_cons_of_neg (by simp [hesp])]
    | cons b tb =>
      have hb := h2 b (List.mem_cons_self b tb)
      rw [List.cons_append, List.dropWhile_cons_of_neg (by simp [hsp b hb]),
        List.dropWhile_cons_of_pos hb,
        List.dropWhile_append_of_pos (fun c hc => h2 c (List.mem_cons_of_mem b hc)),
        List.dropWhile_cons_of_neg (by simp [hesp])]
  cases kw with
  | nil =>
    have s1 : (sp1 ++ ([] ++ (sp2 ++ '=' :: r))).dropWhile isSpace = '=' :: r := by
      rw [List.nil_append, List.dropWhile_append_of_pos h1,
        List.dropWhile_append_of_pos h2, List.dropWhile_cons_of_neg (by simp [hesp])]
    unfold eqScan
    rw [s1, List.dropWhile_cons_of_neg (by simp [hpe]),
      List.dropWhile_cons_of_neg (by simp [hesp]),
      List.takeWhile_cons_of_neg (by simp [hpe])]
    rfl
  | cons a t =>
    have ha : p a = true := hk a (List.mem_cons_self a t)
    have ht : ∀ c ∈ t, p c = true := fun c hc => hk c (List.mem_cons_of_mem a hc)
    have s1 : (sp1 ++ (a :: t ++ (sp2 ++ '=' :: r))).dropWhile isSpace =
        a :: (t ++ (sp2 ++ '=' :: r)) := by
      rw [List.dropWhile_append_of_pos h1, List.cons_append,
        List.dropWhile_cons_of_neg (by simp [hps a ha])]
    unfold eqScan
    rw [s1, List.dropWhile_cons_of_pos ha, List.dropWhile_append_of_pos ht, dw0,
      List.takeWhile_cons_of_pos ha, List.takeWhile_append_of_pos ht, tw0,
      List.append_nil]
    rfl

/-! Equation lemmas keyed on the match scrutinees of the lexer definitions. -/

theorem is_empty_value_of_scan {input kw rest : List Char}
    (h : eqScan isKwAl input = some (kw, rest)) :
    is_empty_value input = emptyValueTail rest := by
  unfold is_empty_value
  rw [h]

theorem emptyValueTail_of_nil {rest : List Char} (h : rest.dropWhile isSpace = []) :
    emptyValueTail rest = true := by
  unfold emptyValueTail
  rw [h]

theorem emptyValueTail_of_bracket {rest r2 : List Char}
    (h : rest.dropWhile isSpace = '[' :: r2) :
    emptyValueTail rest = emptyBracketTail r2 := by
  unfold emptyValueTail
  rw [h]
  rfl

theorem emptyBracketTail_of_nil {r2 : List Char} (h : r2.dropWhile isUnitChar = []) :
    emptyBracketTail r2 = true := by
  unfold emptyBracketTail
  rw [h]

theorem emptyBracketTail_of_close {r2 : List Char}
    (h : r2.dropWhile isUnitChar = [']']) :
    emptyBracketTail r2 = true := by
  unfold emptyBracketTail
  rw [h]
  rfl

/-- The empty-value language: leading white space, keyword characters, white
space, `=`, white space, then nothing or an (optionally closed) bracket
remnant, always matches `is_empty_value`. -/
theorem is_empty_value_of_shape (sp1 kw sp2 sp3 rem : List Char)
    (h1 : ∀ c ∈ sp1, isSpace c = true) (hkw : ∀ c ∈ kw, isKwAl c = true)
    (h2 : ∀ c ∈ sp2, isSpace c = true) (h3 : ∀ c ∈ sp3, isSpace c = true)
    (hrem : rem = [] ∨ ∃ u cl, rem = '[' :: (u ++ cl) ∧
      (∀ c ∈ u, isUnitChar c = true) ∧ (cl = [] ∨ cl = [']'])) :
    is_empty_value (sp1 ++ (kw ++ (sp2 ++ '=' :: (sp3 ++ rem)))) = true := by
  have hscan := eqScan_complete (fun c hc => isSpace_not_kwAl hc) (by decide)
    (fun c hc => isKwAl_not_space hc) sp1 kw sp2 (sp3 ++ rem) h1 hkw h2
  rw [is_empty_value_of_scan hscan]
  rcases hrem with hnil | ⟨u, cl, hrem, hu, hcl⟩
  · subst hnil
    refine emptyValueTail_of_nil ?_
    rw [List.append_nil]
    exact dropWhile_all sp3 h3
  · subst hrem
    rw [emptyValueTail_of_bracket (by
      rw [List.dropWhile_append_of_pos h3]
      exact List.dropWhile_cons_of_neg (by decide))]
    rcases hcl with hcl | hcl
    · subst hcl
      refine emptyBracketTail_of_nil ?_
      rw [List.append_nil]
      exact dropWhile_all u hu
    · subst hcl
      refine emptyBracketTail_of_close ?_
      rw [List.dropWhile_append_of_pos hu]
      rfl

theorem parse_int_empty {α : Type} (tF : List Char → Option α) (input : List Char)
    (wu : Bool) (h : is_empty_value input = true) :
    parse_kvn_integer_line_new tF input wu = .error (.EmptyValue input) := by
  unfold parse_kvn_integer_line_new
  rw [h]
  rfl

theorem parse_num_empty (input : List Char) (wu : Bool)
    (h : is_empty_value input = true) :
    parse_kvn_numeric_line_new input wu = .error (.EmptyValue input) := by
  unfold parse_kvn_numeric_line_new
  rw [h]
  rfl

theorem parse_dt_empty (input : List Char) (h : is_empty_value input = true) :
    parse_kvn_datetime_line_new input = .err (.EmptyValue input) := by
  unfold parse_kvn_datetime_line_new
  rw [h]
  rfl

/-- C1: for every input line of the shape keyword, `=`, and then nothing, only
white space, or only an (optionally bracket-only) unit remnant, the integer,
float, and date-time lexers all return `EmptyValue` and never `InvalidFormat`:
the `is_empty_value` pre-check runs before the general grammar in each of
them.  The inputs `"KEY =    "`, `"KEY = "`, `"KEY ="`, and `"KEY = [s]"` are
instances of this shape. -/
theorem empty_value_precheck_yields_empty_value {α : Type}
    (tF : List Char → Option α) (wu : Bool)
    (input sp1 kw sp2 sp3 rem : List Char)
    (hin : input = sp1 ++ (kw ++ (sp2 ++ '=' :: (sp3 ++ rem))))
    (h1 : ∀ c ∈ sp1, isSpace c = true) (hkw : ∀ c ∈ kw, isKwAl c = true)
    (h2 : ∀ c ∈ sp2, isSpace c = true) (h3 : ∀ c ∈ sp3, isSpace c = true)
    (hrem : rem = [] ∨ ∃ u cl, rem = '[' :: (u ++ cl) ∧
      (∀ c ∈ u, isUnitChar c = true) ∧ (cl = [] ∨ cl = [']'])) :
    parse_kvn_integer_line_new tF input wu = .error (.EmptyValue input) ∧
    parse_kvn_numeric_line_new input wu = .error (.EmptyValue input) ∧
    parse_kvn_datetime_line_new input = .err (.EmptyValue input) := by
  have he : is_empty_value input = true := by
    rw [hin]
    exact is_empty_value_of_shape sp1 kw sp2 sp3 rem h1 hkw h2 h3 hrem
  exact ⟨parse_int_empty tF input wu he, parse_num_empty input wu he,
    parse_dt_empty input he⟩

theorem dropWhile_eq_self_of_not {p : Char → Bool} :
    ∀ (l : List Char), (∀ c ∈ l, p c = false) → l.dropWhile p = l := by
  intro l h
  cases l with
  | nil => rfl
  | cons a t => exact List.dropWhile_cons_of_neg (by simp [h a (List.mem_cons_self a t)])

theorem trimEnd_eq_self {l : List Char} (h : ∀ c ∈ l, isSpace c = false) :
    trimEnd l = l := by
  unfold trimEnd
  rw [dropWhile_eq_self_of_not l.reverse (fun c hc => h c (List.mem_reverse.mp hc)),
    List.reverse_reverse]

/-- C2: a numeric lexer `InvalidFormat` failure normalizes to the same
`KvnDeserializerErr` tag as a date-time `InvalidFormat` failure —
`InvalidDateTimeFormat`, carrying the offending input text — so a caller
cannot distinguish a numeric format failure from a date-time format failure
from the normalized error value alone. -/
theorem numeric_and_datetime_invalid_format_share_tag (input : List Char) :
    numberErrToDeserializer (.InvalidFormat input) = .InvalidDateTimeFormat input ∧
    dateTimeErrToDeserializer (.InvalidFormat input) = .InvalidDateTimeFormat input ∧
    numberErrToDeserializer (.InvalidFormat input) =
      dateTimeErrToDeserializer (.InvalidFormat input) :=
  ⟨rfl, rfl, rfl⟩

/-- C5: on `"CREATION_DATE = 2021-06-03T05:33:00.123"` the date-time lexer
yields year 2021, month 6, day 3, hour 5, minute 33, second 0, fractional
second 123/1000 and full value `"2021-06-03T05:33:00.123"` as the claim says;
but the claimed shape (seconds: 0-2 integer digits plus an optional fraction)
also admits a seconds field without any digit, and there the lexer panics in
`parse::<f64>().unwrap()` instead of accepting:
`"CREATION_DATE = 2021-06-03T05:33:"` matches the grammar shape yet reaches
the panic. -/
theorem datetime_example_ok_and_digitless_seconds_panic :
    parse_kvn_datetime_line_new ("CREATION_DATE = 2021-06-03T05:33:00.123".toList) =
      .ok ⟨2021, 6, 3, 5, 33, 0, mkRat 123 1000, "2021-06-03T05:33:00.123".toList⟩ ∧
    parse_kvn_datetime_line_new ("CREATION_DATE = 2021-06-03T05:33:".toList) =
      .panic :=
  ⟨by decide, by decide⟩

/-- C6: the line `"SCLK_OFFSET_AT_EPOCH = 28800 [s]"` parses in unit mode to
the value 28800 with unit `"s"`, and the identical line in non-unit mode
fails with `InvalidFormat`. -/
theorem integer_unit_mode_example_line :
    parse_kvn_integer_line_new i64_from_str
      ("SCLK_OFFSET_AT_EPOCH = 28800 [s]".toList) true =
      .ok ⟨28800, some ("s".toList)⟩ ∧
    parse_kvn_integer_line_new i64_from_str
      ("SCLK_OFFSET_AT_EPOCH = 28800 [s]".toList) false =
      .error (.InvalidFormat ("SCLK_OFFSET_AT_EPOCH = 28800 [s]".toList)) :=
  ⟨by decide, by decide⟩

/-- C8: the keyword matcher is a total boolean predicate over
(expected keyword, line): it always returns `Ok` of the comparison between the
line's leading keyword token (spec §4.2) and the expected keyword; its
`KvnKeywordNotFoundErr` branch is unreachable. -/
theorem keyword_matcher_is_total_boolean (key input : List Char) :
    kvn_line_matches_key_new key input =
      .ok (decide (spec_leading_keyword input = key)) := by
  have ht : trimEnd ((input.dropWhile isSpace).takeWhile isKwU) =
      (input.dropWhile isSpace).takeWhile isKwU :=
    trimEnd_eq_self fun c hc =>
      isKwU_not_space (takeWhile_mem_pred (input.dropWhile isSpace) c hc)
  unfold kvn_line_matches_key_new keywordLineRegexCaptures spec_leading_keyword
  show Except.ok (decide (trimEnd ((input.dropWhile isSpace).takeWhile isKwU) = key)) =
    Except.ok (decide ((input.dropWhile isSpace).takeWhile isKwU = key))
  rw [ht]

/-- C10: `parse_kvn_datetime_line_new` is not total — on a seconds capture
with zero integer digits and an empty fraction (`"."`), the internal
`parse::<f64>().unwrap()` fails, so the lexer panics instead of returning
`Ok` or `Err`: witnessed at `"CREATION_DATE = 2021-06-03T05:33:."`. -/
theorem datetime_seconds_dot_only_panics :
    parse_kvn_datetime_line_new ("CREATION_DATE = 2021-06-03T05:33:.".toList) =
      .panic := by
  decide

/-- C7 counterexample: on `"COMMENT   x"` the string lexer returns the value
`"x"`, not the verbatim remainder `"  x"` after the `"COMMENT "` prefix — the
remainder's leading white space is trimmed away. -/
theorem comment_extra_space_trimmed :
    parse_kvn_string_line_new ("COMMENT   x".toList) = .ok ⟨"x".toList, none⟩ ∧
    ("x".toList : List Char) ≠ "  x".toList :=
  ⟨by decide, by decide⟩

/-- C7 amended: every input line that, after trimming only leading white
space, begins with `"COMMENT "` makes the string lexer succeed (never error)
with no unit; the value is the remainder after that prefix with its leading
white space also trimmed — trailing white space retained — and it may be
empty. -/
theorem comment_line_yields_trimmed_remainder (input rest : List Char)
    (h : input.dropWhile isSpace =
      'C' :: 'O' :: 'M' :: 'M' :: 'E' :: 'N' :: 'T' :: ' ' :: rest) :
    parse_kvn_string_line_new input = .ok ⟨rest.dropWhile isSpace, none⟩ := by
  unfold parse_kvn_string_line_new
  rw [h]
  rfl

/-- Witness for C7's amended statement at
`"  COMMENT asd a    asd a ads as "`. -/
theorem comment_line_yields_trimmed_remainder_witness :
    parse_kvn_string_line_new ("  COMMENT asd a    asd a ads as ".toList) =
      .ok ⟨"asd a    asd a ads as ".toList, none⟩ :=
  (comment_line_yields_trimmed_remainder
    ("  COMMENT asd a    asd a ads as ".toList)
    ("asd a    asd a ads as ".toList) (by decide)).trans (by decide)

/-- C3 counterexample: a `KeywordNotFound` failure does not carry the
offending line's raw text — with expected keyword `"X"` against the line
`"Y = 2"`, the mandatory-field mismatch step produces `KeywordNotFound "X"`,
whose only text payload is the expected keyword, not the line. -/
theorem keyword_not_found_error_lacks_line_text :
    deserializerMandatoryMismatchErr ("X".toList) ("Y = 2".toList) =
      some (.KeywordNotFound ("X".toList)) ∧
    deserializerErrText (.KeywordNotFound ("X".toList)) ≠ "Y = 2".toList :=
  ⟨by decide, by decide⟩

/-- C3 amended: every lexer failure carries the raw text of the offending
line — each error value returned by the string, integer, float, or date-time
lexer stores the input line unchanged — while a `KeywordNotFound` failure
carries only the expected keyword, not the line text. -/
theorem error_text_characterization :
    (∀ (input : List Char) (e : KvnStringParserErr),
      parse_kvn_string_line_new input = .error e → stringErrText e = input) ∧
    (∀ {α : Type} (tF : List Char → Option α) (input : List Char) (wu : Bool)
      (e : KvnNumberParserErr),
      parse_kvn_integer_line_new tF input wu = .error e → numberErrText e = input) ∧
    (∀ (input : List Char) (wu : Bool) (e : KvnNumberParserErr),
      parse_kvn_numeric_line_new input wu = .error e → numberErrText e = input) ∧
    (∀ (input : List Char) (e : KvnDateTimeParserErr),
      parse_kvn_datetime_line_new input = .err e → dtErrText e = input) ∧
    (∀ k : List Char, deserializerErrText (keywordNotFoundToDeserializer ⟨k⟩) = k) := by
  refine ⟨?_, ?_, ?_, ?_, fun k => rfl⟩
  · intro input e h
    unfold parse_kvn_string_line_new at h
    repeat' split at h
    all_goals first
      | (injection h with h2; subst h2; rfl)
      | injection h
  · intro α tF input wu e h
    unfold parse_kvn_integer_line_new at h
    repeat' split at h
    all_goals first
      | (injection h with h2; subst h2; rfl)
      | injection h
  · intro input wu e h
    unfold parse_kvn_numeric_line_new at h
    repeat' split at h
    all_goals first
      | (injection h with h2; subst h2; rfl)
      | injection h
  · intro input e h
    unfold parse_kvn_datetime_line_new at h
    repeat' split at h
    all_goals first
      | (injection h with h2; subst h2; rfl)
      | injection h

/-- Witness for C3's amended statement: the string lexer fails on `"ASD ="`
and the error's payload is that line. -/
theorem error_text_characterization_witness :
    stringErrText (.EmptyValue ("ASD =".toList)) = "ASD =".toList :=
  error_text_characterization.1 ("ASD =".toList)
    (.EmptyValue ("ASD =".toList)) (by decide)

theorem splitSign_no_sign (d : Char) (rest : List Char) (hd : isAsciiDigit d = true) :
    splitSign (d :: rest) = ([], d :: rest) := by
  simp only [splitSign]
  rw [if_neg]
  rintro (h | h)
  · exact absurd h (ne_char_of_class hd (by decide))
  · exact absurd h (ne_char_of_class hd (by decide))

theorem splitSign_plus (t : List Char) : splitSign ('+' :: t) = (['+'], t) := by
  simp [splitSign]

theorem splitSign_minus (t : List Char) : splitSign ('-' :: t) = (['-'], t) := by
  simp [splitSign]

theorem splitSign_sign_digit (sign : List Char) (d : Char) (rest : List Char)
    (hsig : sign = [] ∨ sign = ['+'] ∨ sign = ['-']) (hd : isAsciiDigit d = true) :
    splitSign (sign ++ d :: rest) = (sign, d :: rest) := by
  rcases hsig with h | h | h <;> subst h
  · rw [List.nil_append]
    exact splitSign_no_sign d rest hd
  · simp only [List.cons_append, List.nil_append]
    exact splitSign_plus (d :: rest)
  · simp only [List.cons_append, List.nil_append]
    exact splitSign_minus (d :: rest)

/-- The integer value sub-scan accepts `sign digits . fraction-digits` whole,
capturing the full text including the fraction. -/
theorem parseSignedNumber_complete_frac (sign ds fs : List Char)
    (hsig : sign = [] ∨ sign = ['+'] ∨ sign = ['-'])
    (hds : ∀ c ∈ ds, isAsciiDigit c = true) (hdn : ds ≠ [])
    (hfs : ∀ c ∈ fs, isAsciiDigit c = true) :
    parseSignedNumber (sign ++ (ds ++ '.' :: fs)) =
      some ((sign ++ ds) ++ '.' :: fs, []) := by
  cases ds with
  | nil => exact absurd rfl hdn
  | cons d ds2 =>
    have hd : isAsciiDigit d = true := hds d (List.mem_cons_self d ds2)
    have hsplit : splitSign (sign ++ ((d :: ds2) ++ '.' :: fs)) =
        (sign, (d :: ds2) ++ '.' :: fs) := by
      rw [List.cons_append]
      exact splitSign_sign_digit sign d (ds2 ++ '.' :: fs) hsig hd
    have htake : ((d :: ds2) ++ '.' :: fs).takeWhile isAsciiDigit = d :: ds2 := by
      rw [List.takeWhile_append_of_pos hds,
        List.takeWhile_cons_of_neg (by decide), List.append_nil]
    have hdrop : ((d :: ds2) ++ '.' :: fs).dropWhile isAsciiDigit = '.' :: fs := by
      rw [List.dropWhile_append_of_pos hds, List.dropWhile_cons_of_neg (by decide)]
    unfold parseSignedNumber
    rw [hsplit]
    simp only [htake, hdrop, takeWhile_all fs hfs, dropWhile_all fs hfs]
    rw [if_neg (by exact List.cons_ne_nil d ds2)]

/-- The integer value sub-scan accepts `sign digits` whole. -/
theorem parseSignedNumber_complete_int (sign ds : List Char)
    (hsig : sign = [] ∨ sign = ['+'] ∨ sign = ['-'])
    (hds : ∀ c ∈ ds, isAsciiDigit c = true) (hdn : ds ≠ []) :
    parseSignedNumber (sign ++ ds) = some (sign ++ ds, []) := by
  cases ds with
  | nil => exact absurd rfl hdn
  | cons d ds2 =>
    have hd : isAsciiDigit d = true := hds d (List.mem_cons_self d ds2)
    have hsplit : splitSign (sign ++ (d :: ds2)) = (sign, d :: ds2) :=
      splitSign_sign_digit sign d ds2 hsig hd
    unfold parseSignedNumber
    rw [hsplit]
    simp only [takeWhile_all (d :: ds2) hds, dropWhile_all (d :: ds2) hds]
    rw [if_neg (by exact List.cons_ne_nil d ds2)]

theorem emptyValueTail_of_other {rest : List Char} {d : Char} {r : List Char}
    (h : rest.dropWhile isSpace = d :: r) (hne : d ≠ '[') :
    emptyValueTail rest = false := by
  unfold emptyValueTail
  rw [h]
  exact if_neg hne

theorem unitTailScan_nil (wu : Bool) : unitTailScan [] wu = some none := by
  cases wu <;> rfl

theorem numLineCaptures_eq (valP : List Char → Option (List Char × List Char))
    {input kw rest vs t2 : List Char} {u : Option (List Char)} (wu : Bool)
    (hscan : eqScan isKwAl input = some (kw, rest))
    (hval : valP (rest.dropWhile isSpace) = some (vs, t2))
    (htail : unitTailScan t2 wu = some u) :
    numLineCaptures valP input wu = some (kw, vs, u) := by
  unfold numLineCaptures
  rw [hscan]
  simp only [hval, htail]

theorem parse_int_result {α : Type} (tF : List Char → Option α)
    {input kw vs : List Char} {u : Option (List Char)} (wu : Bool)
    (hne : is_empty_value input = false)
    (hcap : numLineCaptures parseSignedNumber input wu = some (kw, vs, u))
    (hkw : kw ≠ []) :
    parse_kvn_integer_line_new tF input wu =
      (match tF vs with
       | none => .error (.InvalidFormat input)
       | some n => .ok ⟨n, u⟩) := by
  unfold parse_kvn_integer_line_new
  rw [hne]
  simp only [Bool.false_eq_true, if_false, hcap]
  rw [if_neg hkw]

/-- C4 counterexample: with an integer target type, the line
`"KEY = 28800.5"` is rejected with `InvalidFormat` — the lexer does not
discard the fractional part and return 28800. -/
theorem integer_fractional_value_rejected :
    parse_kvn_integer_line_new i64_from_str ("KEY = 28800.5".toList) false =
      .error (.InvalidFormat ("KEY = 28800.5".toList)) := by
  decide

/-- C4 amended: the integer lexer's grammar matches
`keyword = [sign]digits[.fraction]` (and both unit modes accept a line with
no unit clause), but the fractional part is not discarded: the full value
text, fraction included, is handed to the integer conversion, which fails on
the decimal point, so every line with a fractional part returns
`InvalidFormat`; only fraction-free values parse, to the exact signed
integer. -/
theorem integer_line_fraction_behavior {wu : Bool}
    (sp1 kw sp2 sp3 sign ds fs : List Char)
    (h1 : ∀ c ∈ sp1, isSpace c = true) (hkw : ∀ c ∈ kw, isKwAl c = true)
    (hkn : kw ≠ [])
    (h2 : ∀ c ∈ sp2, isSpace c = true) (h3 : ∀ c ∈ sp3, isSpace c = true)
    (hsig : sign = [] ∨ sign = ['+'] ∨ sign = ['-'])
    (hds : ∀ c ∈ ds, isAsciiDigit c = true) (hdn : ds ≠ [])
    (hfs : ∀ c ∈ fs, isAsciiDigit c = true) :
    parse_kvn_integer_line_new i64_from_str
        (sp1 ++ (kw ++ (sp2 ++ '=' :: (sp3 ++ (sign ++ (ds ++ '.' :: fs)))))) wu =
      .error (.InvalidFormat
        (sp1 ++ (kw ++ (sp2 ++ '=' :: (sp3 ++ (sign ++ (ds ++ '.' :: fs))))))) ∧
    (digitsToNat ds ≤ 2 ^ 63 - 1 →
      parse_kvn_integer_line_new i64_from_str
          (sp1 ++ (kw ++ (sp2 ++ '=' :: (sp3 ++ (sign ++ ds))))) wu =
        .ok ⟨if sign = ['-'] then -(digitsToNat ds : Int) else (digitsToNat ds : Int),
          none⟩) := by
  obtain ⟨d, ds2, hdd⟩ : ∃ d ds2, ds = d :: ds2 := by
    cases ds with
    | nil => exact absurd rfl hdn
    | cons d ds2 => exact ⟨d, ds2, rfl⟩
  have hd : isAsciiDigit d = true := by
    subst hdd; exact hds d (List.mem_cons_self d ds2)
  have hdropsign : ∀ tail : List Char,
      (sp3 ++ (sign ++ (ds ++ tail))).dropWhile isSpace = sign ++ (ds ++ tail) := by
    intro tail
    rw [List.dropWhile_append_of_pos h3]
    rcases hsig with h | h | h <;> subst h
    · rw [List.nil_append]
      subst hdd
      rw [List.cons_append]
      exact List.dropWhile_cons_of_neg (by simp [isAsciiDigit_not_space hd])
    · simp only [List.cons_append, List.nil_append]
      exact List.dropWhile_cons_of_neg (by decide)
    · simp only [List.cons_append, List.nil_append]
      exact List.dropWhile_cons_of_neg (by decide)
  have hheadne : ∀ tail : List Char, ∃ c r, sign ++ (ds ++ tail) = c :: r ∧ c ≠ '[' := by
    intro tail
    rcases hsig with h | h | h <;> subst h
    · subst hdd
      exact ⟨d, ds2 ++ tail, by rw [List.nil_append, List.cons_append],
        ne_char_of_class hd (by decide)⟩
    · exact ⟨'+', ds ++ tail, by simp only [List.cons_append, List.nil_append], by decide⟩
    · exact ⟨'-', ds ++ tail, by simp only [List.cons_append, List.nil_append], by decide⟩
  have hscan : ∀ tail : List Char,
      eqScan isKwAl (sp1 ++ (kw ++ (sp2 ++ '=' :: (sp3 ++ (sign ++ (ds ++ tail)))))) =
        some (kw, sp3 ++ (sign ++ (ds ++ tail))) :=
    fun tail => eqScan_complete (fun c hc => isSpace_not_kwAl hc) (by decide)
      (fun c hc => isKwAl_not_space hc) sp1 kw sp2 (sp3 ++ (sign ++ (ds ++ tail)))
      h1 hkw h2
  have hne : ∀ tail : List Char,
      is_empty_value (sp1 ++ (kw ++ (sp2 ++ '=' :: (sp3 ++ (sign ++ (ds ++ tail)))))) =
        false := by
    intro tail
    rw [is_empty_value_of_scan (hscan tail)]
    obtain ⟨c, r, hcr, hcne⟩ := hheadne tail
    exact emptyValueTail_of_other (by rw [hdropsign tail, hcr]) hcne
  have hsplitfrac : splitSign (sign ++ (ds ++ '.' :: fs)) = (sign, ds ++ '.' :: fs) := by
    rw [hdd, List.cons_append]
    exact splitSign_sign_digit sign d (ds2 ++ '.' :: fs) hsig hd
  constructor
  · have hval : parseSignedNumber
        ((sp3 ++ (sign ++ (ds ++ '.' :: fs))).dropWhile isSpace) =
        some ((sign ++ ds) ++ '.' :: fs, []) := by
      rw [hdropsign ('.' :: fs)]
      exact parseSignedNumber_complete_frac sign ds fs hsig hds hdn hfs
    have hcap := numLineCaptures_eq parseSignedNumber wu (hscan ('.' :: fs)) hval
      (unitTailScan_nil wu)
    rw [parse_int_result i64_from_str wu (hne ('.' :: fs)) hcap hkn]
    have hTfail : i64_from_str ((sign ++ ds) ++ '.' :: fs) = none := by
      unfold i64_from_str
      rw [List.append_assoc, hsplitfrac]
      show i64_of_parts sign (ds ++ '.' :: fs) = none
      unfold i64_of_parts
      rw [if_neg]
      intro hcon
      have hall : (ds ++ '.' :: fs).all isAsciiDigit = true := hcon.2
      have hdot : isAsciiDigit '.' = false := by decide
      rw [List.all_append, List.all_cons, hdot] at hall
      simp at hall
    rw [hTfail]
  · intro hbound
    have hdrop2 : (sp3 ++ (sign ++ ds)).dropWhile isSpace = sign ++ ds := by
      have h0 := hdropsign []
      rw [List.append_nil] at h0
      exact h0
    have hscan2 : eqScan isKwAl (sp1 ++ (kw ++ (sp2 ++ '=' :: (sp3 ++ (sign ++ ds))))) =
        some (kw, sp3 ++ (sign ++ ds)) := by
      have h0 := hscan []
      rw [List.append_nil] at h0
      exact h0
    have hne2 : is_empty_value
        (sp1 ++ (kw ++ (sp2 ++ '=' :: (sp3 ++ (sign ++ ds))))) = false := by
      have h0 := hne []
      rw [List.append_nil] at h0
      exact h0
    have hval : parseSignedNumber ((sp3 ++ (sign ++ ds)).dropWhile isSpace) =
        some (sign ++ ds, []) := by
      rw [hdrop2]
      exact parseSignedNumber_complete_int sign ds hsig hds hdn
    have hcap := numLineCaptures_eq parseSignedNumber wu hscan2 hval
      (unitTailScan_nil wu)
    rw [parse_int_result i64_from_str wu hne2 hcap hkn]
    have hsplitint : splitSign (sign ++ ds) = (sign, ds) := by
      rw [hdd]
      exact splitSign_sign_digit sign d ds2 hsig hd
    have hcast : (digitsToNat ds : Int) ≤ 2 ^ 63 - 1 := by
      have : ((2 : Nat) ^ 63 - 1 : Nat) = ((2 ^ 63 - 1 : Int).toNat) := by decide
      omega
    have hTok : i64_from_str (sign ++ ds) =
        some (if sign = ['-'] then -(digitsToNat ds : Int) else (digitsToNat ds : Int)) := by
      unfold i64_from_str
      rw [hsplitint]
      show i64_of_parts sign ds =
        some (if sign = ['-'] then -(digitsToNat ds : Int) else (digitsToNat ds : Int))
      unfold i64_of_parts
      rw [if_pos ⟨hdn, List.all_eq_true.mpr hds⟩]
      rcases hsig with h | h | h <;> subst h
      · have hne1 : (([] : List Char)) ≠ ['-'] := by decide
        rw [if_neg hne1, if_pos hcast, if_neg hne1]
      · have hne1 : ((['+'] : List Char)) ≠ ['-'] := by decide
        rw [if_neg hne1, if_pos hcast, if_neg hne1]
      · have hneg : -(2 ^ 63) ≤ -((digitsToNat ds : Int)) := by omega
        rw [if_pos rfl, if_pos hneg, if_pos rfl]
    rw [hTok]

theorem splitSign_append (t : List Char) :
    t = (splitSign t).1 ++ (splitSign t).2 ∧
      ∀ c ∈ (splitSign t).1, c = '+' ∨ c = '-' := by
  cases t with
  | nil => exact ⟨rfl, by intro c hc; simp [splitSign] at hc⟩
  | cons a r =>
    by_cases ha : a = '+' ∨ a = '-'
    · have hs : splitSign (a :: r) = ([a], r) := by
        simp only [splitSign]
        rw [if_pos ha]
      rw [hs]
      refine ⟨rfl, ?_⟩
      intro c hc
      simp only [List.mem_singleton] at hc
      subst hc
      exact ha
    · have hs : splitSign (a :: r) = ([], a :: r) := by
        simp only [splitSign]
        rw [if_neg ha]
      rw [hs]
      refine ⟨rfl, ?_⟩
      intro c hc
      simp at hc

theorem not_mem_of_all_ne {l : List Char} {a : Char} (h : ∀ c ∈ l, c ≠ a) : a ∉ l :=
  fun hm => absurd rfl (h a hm)

/-- Soundness of the integer value sub-scan: on success, the scanned text is
the consumed value followed by the remainder, and the value text contains no
opening bracket. -/
theorem parseSignedNumber_sound {t vs t2 : List Char}
    (h : parseSignedNumber t = some (vs, t2)) :
    t = vs ++ t2 ∧ ∀ c ∈ vs, c ≠ '[' := by
  obtain ⟨hts, hsgn⟩ := splitSign_append t
  have hs2 := List.takeWhile_append_dropWhile isAsciiDigit (splitSign t).2
  unfold parseSignedNumber at h
  split at h
  · cases h
  next hcne =>
    split at h
    next t3 heq =>
      injection h with h2
      injection h2 with hvs ht2
      subst hvs
      subst ht2
      have ht3 := List.takeWhile_append_dropWhile isAsciiDigit t3
      constructor
      · conv_lhs => rw [hts, ← hs2, heq, ← ht3]
        simp [List.append_assoc, List.cons_append]
      · intro c hc
        simp only [List.append_assoc, List.cons_append, List.mem_append,
          List.mem_cons] at hc
        rcases hc with hc | hc | hc | hc
        · rcases hsgn c hc with h1 | h1 <;> subst h1 <;> decide
        · exact ne_char_of_class (takeWhile_mem_pred (splitSign t).2 c hc) (by decide)
        · subst hc; decide
        · exact ne_char_of_class (takeWhile_mem_pred t3 c hc) (by decide)
    next x heq =>
      injection h with h2
      injection h2 with hvs ht2
      subst hvs
      subst ht2
      constructor
      · conv_lhs => rw [hts, ← hs2]
        simp [List.append_assoc]
      · intro c hc
        simp only [List.mem_append] at hc
        rcases hc with hc | hc
        · rcases hsgn c hc with h1 | h1 <;> subst h1 <;> decide
        · exact ne_char_of_class (takeWhile_mem_pred (splitSign t).2 c hc) (by decide)

/-- Soundness of the float value sub-scan, analogous to the integer one. -/
theorem parseSignedNumberExp_sound {t vs t2 : List Char}
    (h : parseSignedNumberExp t = some (vs, t2)) :
    t = vs ++ t2 ∧ ∀ c ∈ vs, c ≠ '[' := by
  unfold parseSignedNumberExp at h
  split at h
  · cases h
  next vs0 t20 heq0 =>
    obtain ⟨hts0, hmem0⟩ := parseSignedNumber_sound heq0
    split at h
    next c t3 =>
      split at h
      next hce =>
        split at h
        · cases h
        next hdig =>
          injection h with h2
          injection h2 with hvs ht2
          subst hvs
          subst ht2
          obtain ⟨hts3, hsgn3⟩ := splitSign_append t3
          have hs23 := List.takeWhile_append_dropWhile isAsciiDigit (splitSign t3).2
          constructor
          · conv_lhs => rw [hts0, hts3, ← hs23]
            simp [List.append_assoc, List.cons_append]
          · intro c2 hc2
            simp only [List.append_assoc, List.cons_append, List.mem_append,
              List.mem_cons] at hc2
            rcases hc2 with hc2 | hc2 | hc2 | hc2
            · exact hmem0 c2 hc2
            · subst hc2
              rcases hce with h1 | h1 <;> subst h1 <;> decide
            · rcases hsgn3 c2 hc2 with h1 | h1 <;> subst h1 <;> decide
            · exact ne_char_of_class (takeWhile_mem_pred (splitSign t3).2 c2 hc2)
                (by decide)
      next hce =>
        injection h with h2
        injection h2 with hvs ht2
        subst hvs
        subst ht2
        exact ⟨hts0, hmem0⟩
    next =>
      injection h with h2
      injection h2 with hvs ht2
      subst hvs
      subst ht2
      exact ⟨hts0, hmem0⟩

/-- Soundness of the unit-tail scan: on success the unit is absent and the
tail is all white space, or unit mode is on and the tail is white space, an
opening `[`, the unit text, and an optional closing `]` with trailing white
space. -/
theorem unitTailScan_sound {t2 : List Char} {wu : Bool} {u : Option (List Char)}
    (h : unitTailScan t2 wu = some u) :
    (u = none ∧ ∀ c ∈ t2, isSpace c = true) ∨
    (wu = true ∧ ∃ us sp cl, u = some us ∧ t2 = sp ++ '[' :: (us ++ cl) ∧
      (∀ c ∈ sp, isSpace c = true) ∧
      ((∀ c ∈ cl, isSpace c = true) ∨
       ∃ cl2, cl = ']' :: cl2 ∧ (∀ c ∈ cl2, isSpace c = true))) := by
  have hsplit2 := List.takeWhile_append_dropWhile isSpace t2
  unfold unitTailScan at h
  cases wu with
  | false =>
    rw [if_neg Bool.false_ne_true] at h
    split at h
    next hdrop =>
      injection h with h2
      exact Or.inl ⟨h2.symm, all_of_dropWhile_eq_nil t2 hdrop⟩
    next => cases h
  | true =>
    rw [if_pos rfl] at h
    split at h
    next heq =>
      injection h with h2
      exact Or.inl ⟨h2.symm, all_of_dropWhile_eq_nil t2 heq⟩
    next c t4 heq =>
      split at h
      next hcbr =>
        subst hcbr
        split at h
        next hall =>
          injection h with h2
          right
          refine ⟨rfl, t4.takeWhile isUnitChar, t2.takeWhile isSpace,
            t4.dropWhile isUnitChar, h2.symm, ?_, takeWhile_mem_pred t2, ?_⟩
          · rw [List.takeWhile_append_dropWhile isUnitChar t4, ← heq]
            exact hsplit2.symm
          · cases hcl : t4.dropWhile isUnitChar with
            | nil =>
              left
              intro c hc
              simp at hc
            | cons c5 r5 =>
              by_cases hc5 : c5 = ']'
              · subst hc5
                right
                refine ⟨r5, rfl, ?_⟩
                rw [hcl] at hall
                simp only [dropCloseBracket, if_pos rfl] at hall
                exact List.all_eq_true.mp hall
              · left
                rw [hcl] at hall
                simp only [dropCloseBracket, if_neg hc5] at hall
                intro c hc
                exact List.all_eq_true.mp hall c hc
        next => cases h
      next hcbr => cases h

/-- Soundness of the shared numeric line scan: a successful capture decomposes
the whole input line, and the optional unit capture reflects exactly what
follows the value text. -/
theorem numLineCaptures_sound {valP : List Char → Option (List Char × List Char)}
    (hvalP : ∀ t vs t2, valP t = some (vs, t2) → t = vs ++ t2 ∧ ∀ c ∈ vs, c ≠ '[')
    {input kw vs : List Char} {u : Option (List Char)} {wu : Bool}
    (h : numLineCaptures valP input wu = some (kw, vs, u)) :
    ∃ sp1 sp2 sp3 t2, input = sp1 ++ (kw ++ (sp2 ++ '=' :: (sp3 ++ (vs ++ t2)))) ∧
      (∀ c ∈ sp1, isSpace c = true) ∧ (∀ c ∈ kw, isKwAl c = true) ∧
      (∀ c ∈ sp2, isSpace c = true) ∧ (∀ c ∈ sp3, isSpace c = true) ∧
      (∀ c ∈ vs, c ≠ '[') ∧
      ((u = none ∧ ∀ c ∈ t2, isSpace c = true) ∨
       (wu = true ∧ ∃ us sp cl, u = some us ∧ t2 = sp ++ '[' :: (us ++ cl) ∧
         (∀ c ∈ sp, isSpace c = true) ∧
         ((∀ c ∈ cl, isSpace c = true) ∨
          ∃ cl2, cl = ']' :: cl2 ∧ (∀ c ∈ cl2, isSpace c = true)))) := by
  unfold numLineCaptures at h
  split at h
  · cases h
  next kw0 rest heq1 =>
    split at h
    · cases h
    next vs0 t20 heq2 =>
      split at h
      · cases h
      next u0 heq3 =>
        injection h with h2
        injection h2 with hkw h3
        injection h3 with hvs hu
        subst hkw
        subst hvs
        subst hu
        obtain ⟨sp1, sp2, hin, hs1, hkwc, hs2, _⟩ := eqScan_sound heq1
        obtain ⟨hrest, hvsne⟩ := hvalP _ _ _ heq2
        have hr := List.takeWhile_append_dropWhile isSpace rest
        have hrest2 : rest = rest.takeWhile isSpace ++ (vs0 ++ t20) := by
          rw [← hrest]
          exact hr.symm
        refine ⟨sp1, sp2, rest.takeWhile isSpace, t20, ?_, hs1, hkwc, hs2,
          takeWhile_mem_pred rest, hvsne, unitTailScan_sound heq3⟩
        rw [hin]
        conv_lhs => rw [hrest2]

/-- Inversion of the integer lexer on success: the captures produced the
returned unit. -/
theorem parse_int_ok_inv {α : Type} {tF : List Char → Option α} {input : List Char}
    {wu : Bool} {v : α} {u : Option (List Char)}
    (h : parse_kvn_integer_line_new tF input wu = .ok ⟨v, u⟩) :
    ∃ kw vs, numLineCaptures parseSignedNumber input wu = some (kw, vs, u) := by
  unfold parse_kvn_integer_line_new at h
  split at h
  · cases h
  · split at h
    · cases h
    next kw0 vs0 u0 heq =>
      split at h
      · cases h
      · split at h
        · cases h
        next n heq2 =>
          injection h with h2
          injection h2 with hv hu
          subst hu
          exact ⟨kw0, vs0, heq⟩

/-- Inversion of the float lexer on success. -/
theorem parse_num_ok_inv {input : List Char} {wu : Bool} {v : ℚ}
    {u : Option (List Char)}
    (h : parse_kvn_numeric_line_new input wu = .ok ⟨v, u⟩) :
    ∃ kw vs, numLineCaptures parseSignedNumberExp input wu = some (kw, vs, u) := by
  unfold parse_kvn_numeric_line_new at h
  split at h
  · cases h
  · split at h
    · cases h
    next kw0 vs0 u0 heq =>
      split at h
      · cases h
      · split at h
        · cases h
        next n heq2 =>
          injection h with h2
          injection h2 with hv hu
          subst hu
          exact ⟨kw0, vs0, heq⟩

theorem unit_disjunction_of_decomp {input kw vs : List Char} {u : Option (List Char)}
    {wu : Bool} (sp1 sp2 sp3 t2 : List Char)
    (hin : input = sp1 ++ (kw ++ (sp2 ++ '=' :: (sp3 ++ (vs ++ t2)))))
    (hs1 : ∀ c ∈ sp1, isSpace c = true) (hkwc : ∀ c ∈ kw, isKwAl c = true)
    (hs2 : ∀ c ∈ sp2, isSpace c = true) (hs3 : ∀ c ∈ sp3, isSpace c = true)
    (hvsne : ∀ c ∈ vs, c ≠ '[')
    (hdisj : (u = none ∧ ∀ c ∈ t2, isSpace c = true) ∨
      (wu = true ∧ ∃ us sp cl, u = some us ∧ t2 = sp ++ '[' :: (us ++ cl) ∧
        (∀ c ∈ sp, isSpace c = true) ∧
        ((∀ c ∈ cl, isSpace c = true) ∨
         ∃ cl2, cl = ']' :: cl2 ∧ (∀ c ∈ cl2, isSpace c = true)))) :
    (u = none ∧ '[' ∉ input) ∨
    (wu = true ∧ ∃ us pre sp cl, u = some us ∧
      input = pre ++ (sp ++ '[' :: (us ++ cl)) ∧ (∀ c ∈ sp, isSpace c = true) ∧
      ((∀ c ∈ cl, isSpace c = true) ∨
       ∃ cl2, cl = ']' :: cl2 ∧ (∀ c ∈ cl2, isSpace c = true))) := by
  rcases hdisj with ⟨hu, ht2⟩ | ⟨hwu, us, sp, cl, hu, ht2, hsp, hcl⟩
  · left
    refine ⟨hu, ?_⟩
    rw [hin]
    intro hm
    simp only [List.mem_append, List.mem_cons] at hm
    rcases hm with hm | hm | hm | hm | hm | hm | hm
    · exact absurd (hs1 _ hm) (by decide)
    · exact absurd (hkwc _ hm) (by decide)
    · exact absurd (hs2 _ hm) (by decide)
    · exact absurd hm (by decide)
    · exact absurd (hs3 _ hm) (by decide)
    · exact absurd rfl (hvsne _ hm)
    · exact absurd (ht2 _ hm) (by decide)
  · right
    refine ⟨hwu, us, sp1 ++ (kw ++ (sp2 ++ '=' :: (sp3 ++ vs))), sp, cl, hu, ?_,
      hsp, hcl⟩
    rw [hin, ht2]
    simp [List.append_assoc, List.cons_append]

/-- C9 counterexample: in unit mode the closing `]` is optional, so a line can
produce a present unit although it carries no closing bracket at all:
`"KEY = 1 [s"` succeeds with unit `"s"` and `']'` occurs nowhere in the
line. -/
theorem integer_unit_without_closing_bracket :
    parse_kvn_integer_line_new i64_from_str ("KEY = 1 [s".toList) true =
      .ok ⟨1, some ("s".toList)⟩ ∧
    ']' ∉ "KEY = 1 [s".toList :=
  ⟨by decide, by decide⟩

/-- C9 amended: for every successful parse of the integer or float lexer, the
unit is present exactly when the line carries, after the value, optional
white space, an opening `[`, the unit text, and an optional closing `]`
before the line end (unit mode only) — when the unit is absent the line
contains no `[` at all — and the string lexer never returns a unit. -/
theorem unit_present_iff_opening_bracket :
    (∀ {α : Type} (tF : List Char → Option α) (input : List Char) (wu : Bool)
      (v : α) (u : Option (List Char)),
      parse_kvn_integer_line_new tF input wu = .ok ⟨v, u⟩ →
      ((u = none ∧ '[' ∉ input) ∨
       (wu = true ∧ ∃ us pre sp cl, u = some us ∧
         input = pre ++ (sp ++ '[' :: (us ++ cl)) ∧
         (∀ c ∈ sp, isSpace c = true) ∧
         ((∀ c ∈ cl, isSpace c = true) ∨
          ∃ cl2, cl = ']' :: cl2 ∧ (∀ c ∈ cl2, isSpace c = true))))) ∧
    (∀ (input : List Char) (wu : Bool) (v : ℚ) (u : Option (List Char)),
      parse_kvn_numeric_line_new input wu = .ok ⟨v, u⟩ →
      ((u = none ∧ '[' ∉ input) ∨
       (wu = true ∧ ∃ us pre sp cl, u = some us ∧
         input = pre ++ (sp ++ '[' :: (us ++ cl)) ∧
         (∀ c ∈ sp, isSpace c = true) ∧
         ((∀ c ∈ cl, isSpace c = true) ∨
          ∃ cl2, cl = ']' :: cl2 ∧ (∀ c ∈ cl2, isSpace c = true))))) ∧
    (∀ (input v : List Char) (u : Option (List Char)),
      parse_kvn_string_line_new input = .ok ⟨v, u⟩ → u = none) := by
  refine ⟨?_, ?_, ?_⟩
  · intro α tF input wu v u h
    obtain ⟨kw, vs, hcap⟩ := parse_int_ok_inv h
    obtain ⟨sp1, sp2, sp3, t2, hin, hs1, hkwc, hs2, hs3, hvsne, hdisj⟩ :=
      numLineCaptures_sound (fun t vs t2 hh => parseSignedNumber_sound hh) hcap
    exact unit_disjunction_of_decomp sp1 sp2 sp3 t2 hin hs1 hkwc hs2 hs3 hvsne hdisj
  · intro input wu v u h
    obtain ⟨kw, vs, hcap⟩ := parse_num_ok_inv h
    obtain ⟨sp1, sp2, sp3, t2, hin, hs1, hkwc, hs2, hs3, hvsne, hdisj⟩ :=
      numLineCaptures_sound (fun t vs t2 hh => parseSignedNumberExp_sound hh) hcap
    exact unit_disjunction_of_decomp sp1 sp2 sp3 t2 hin hs1 hkwc hs2 hs3 hvsne hdisj
  · intro input v u h
    unfold parse_kvn_string_line_new at h
    repeat' split at h
    all_goals first
      | (injection h with h2; injection h2 with h3 h4; exact h4.symm)
      | injection h

/-- Witness for C9's amended statement at `"X = 5 [km]"` in unit mode. -/
theorem unit_present_iff_opening_bracket_witness :
    (some ("km".toList) = none ∧ '[' ∉ "X = 5 [km]".toList) ∨
    (true = true ∧ ∃ us pre sp cl, some ("km".toList) = some us ∧
      "X = 5 [km]".toList = pre ++ (sp ++ '[' :: (us ++ cl)) ∧
      (∀ c ∈ sp, isSpace c = true) ∧
      ((∀ c ∈ cl, isSpace c = true) ∨
       ∃ cl2, cl = ']' :: cl2 ∧ (∀ c ∈ cl2, isSpace c = true))) :=
  unit_present_iff_opening_bracket.1 i64_from_str ("X = 5 [km]".toList) true 5
    (some ("km".toList)) (by decide)

/-- Witness for C4's amended statement at `"A = 1.5"` (InvalidFormat) and
`"A = 1"` (value 1). -/
theorem integer_line_fraction_behavior_witness :
    parse_kvn_integer_line_new i64_from_str ("A = 1.5".toList) false =
      .error (.InvalidFormat ("A = 1.5".toList)) ∧
    parse_kvn_integer_line_new i64_from_str ("A = 1".toList) false =
      .ok ⟨1, none⟩ := by
  have h := @integer_line_fraction_behavior false [] ("A".toList) [' '] [' ']
    [] ['1'] ['5'] (by decide) (by decide) (by decide) (by decide) (by decide)
    (Or.inl rfl) (by decide) (by decide) (by decide)
  constructor
  · have heq : ([] : List Char) ++
        ("A".toList ++ ([' '] ++ '=' :: ([' '] ++ ([] ++ (['1'] ++ '.' :: ['5']))))) =
        "A = 1.5".toList := by decide
    rw [← heq]
    exact h.1
  · have heq : ([] : List Char) ++
        ("A".toList ++ ([' '] ++ '=' :: ([' '] ++ ([] ++ ['1'])))) =
        "A = 1".toList := by decide
    rw [← heq]
    exact (h.2 (by decide)).trans (by decide)

/-- Witness for C1 at the input `"KEY = [s]"`. -/
theorem empty_value_precheck_yields_empty_value_witness :
    parse_kvn_integer_line_new i64_from_str ("KEY = [s]".toList) true =
      .error (.EmptyValue ("KEY = [s]".toList)) ∧
    parse_kvn_numeric_line_new ("KEY = [s]".toList) true =
      .error (.EmptyValue ("KEY = [s]".toList)) ∧
    parse_kvn_datetime_line_new ("KEY = [s]".toList) =
      .err (.EmptyValue ("KEY = [s]".toList)) :=
  empty_value_precheck_yields_empty_value i64_from_str true ("KEY = [s]".toList)
    [] ("KEY".toList) [' '] [' '] ("[s]".toList)
    (by decide) (by decide) (by decide) (by decide) (by decide)
    (Or.inr ⟨['s'], [']'], by decide, by decide, Or.inr (by decide)⟩)

end Lox
